import Mathlib

/-!
Shallow embedding of the cbpatch repository (package `cbpatch`): the
Master/Bucket/Categories patch store.  Pure data and algorithms are
translated directly from the Go source (`master.go`, the bucket file, the
categories file, `interfaces.go`); file contents are modelled as the CSV
row sequence they serialize, raw compressed bytes as `List Nat`, and the
external pure functions the code calls (MD5, zlib, CSV byte size) are
supplied through a `Codec` record of function parameters, so that the
control flow and state updates of the Go code are captured exactly while
the cryptographic/compression primitives stay abstract.
-/

namespace Cbpatch

/-- Raw bytes of a compressed artifact. -/
abbrev Bytes := List Nat

/-- A CSV file's contents, as the sequence of its rows. -/
abbrev Rows := List (List String)

/-- External pure primitives used by the Go code: MD5 digests (of a CSV
file and of raw bytes), zlib compression/decompression composed with CSV
parsing, and the byte length of the CSV serialization of rows.  These are
parameters of the model; the Go control flow never inspects their
internals. -/
structure Codec where
  md5r : Rows → String
  md5b : Bytes → String
  deflate : Rows → Bytes
  inflate : Bytes → Option Rows
  rowsSize : Rows → Nat

/-- Errors produced by the modelled operations, mirroring the error values
constructed in the Go source. -/
inductive Err where
  | invalidZippedChecksum (path : String)
  | invalidUnzippedChecksum (path : String)
  | malformedRow (path : String)
  | validationError (msg : String)
  | storageError (msg : String)
  | zlibError
  | atoiError (s : String)
  | categoriesError (msg : String)
deriving Repr, DecidableEq

/-- One mutation record (`DefaultPatch` in the source): action tag, key,
values. -/
structure Patch where
  action : String
  key : String
  values : List String
deriving Repr, DecidableEq

/-- The `Bucket` struct from the source (fields that carry model-relevant
state; open file handles are represented by the file contents themselves:
`fileContent` is the staging CSV, `zippedContent` the compressed bytes). -/
structure Bucket where
  storageBucketName : String
  relativeFilePath : String
  remoteFilePath : String
  dir : String
  number : Int
  fileName : String
  zippedFileName : String
  isChanged : Bool
  isDeleted : Bool
  zippedHash : String
  unzippedHash : String
  patchCount : Int
  patches : List Patch
  fileContent : Rows
  zippedContent : Bytes
deriving Repr, DecidableEq

/-- A configured classification item (`CategoriesItem` interface): the
seven accessors of the collaborator contract, as data. -/
structure CatItem where
  id : Int
  category : String
  subcategory : String
  description : String
  identifier : String
  tlc : String
  slc : String
deriving Repr, DecidableEq

/-- The `Categories` struct from the source. -/
structure Categories where
  storageBucketName : String
  relativeFilePath : String
  remoteFilePath : String
  dir : String
  fileName : String
  zippedFileName : String
  zippedHash : String
  unzippedHash : String
  categoryItems : List CatItem
  fileContent : Rows
  zippedContent : Bytes
deriving Repr, DecidableEq

/-- The `Master` struct from the source (data fields; the validation
callback and the collaborator ports are passed to operations as
parameters so the state stays first-order data). -/
structure Master where
  storageBucketName : String
  remoteDir : String
  dir : String
  fileName : String
  isPublic : Bool
  version : String
  unixTime : Int
  dateTime : String
  categoryItems : List CatItem
  categories : Option Categories
  buckets : List Bucket
deriving Repr, DecidableEq

/-- The caller-supplied row validator (`func(line []string, bucket *Bucket)
error`); `none` means the row is accepted. -/
abbrev Validation := List String → Bucket → Option String

/-- `joinPath` from master.go: `strings.Join(parts, "/")`. -/
def joinPath (parts : List String) : String :=
  String.intercalate "/" parts

/-- `NewBucket` from the source: note `FileName`/`ZippedFileName` derived
from the number, fresh buckets start unchanged/undeleted with empty
files. -/
def newBucket (storageBucketName relativeFilePath remoteFilePath dir : String)
    (number : Int) (zippedHash unzippedHash : String) (patchCount : Int) : Bucket :=
  { storageBucketName := storageBucketName
    relativeFilePath := relativeFilePath
    remoteFilePath := remoteFilePath
    dir := dir
    number := number
    fileName := toString number ++ ".csv"
    zippedFileName := toString number ++ ".csv.zlib"
    isChanged := false
    isDeleted := false
    zippedHash := zippedHash
    unzippedHash := unzippedHash
    patchCount := patchCount
    patches := []
    fileContent := []
    zippedContent := [] }

/-- `NewCategories` from the source. -/
def newCategories (storageBucketName relativeFilePath remoteFilePath dir
    zippedHash unzippedHash : String) (items : List CatItem) : Categories :=
  { storageBucketName := storageBucketName
    relativeFilePath := relativeFilePath
    remoteFilePath := remoteFilePath
    dir := dir
    fileName := "categories.csv"
    zippedFileName := "categories.csv.zlib"
    zippedHash := zippedHash
    unzippedHash := unzippedHash
    categoryItems := items
    fileContent := []
    zippedContent := [] }

/-! ### Bucket operations (from the bucket source file) -/

/-- `Bucket.AddPatch`: append one CSV row at the end of the staging file,
mark the bucket changed, append the patch to the in-memory list. -/
def Bucket.addPatchB (p : Patch) (b : Bucket) : Bucket :=
  { b with fileContent := b.fileContent ++ [p.action :: p.key :: p.values]
           isChanged := true
           patches := b.patches ++ [p] }

/-- `Bucket.IsFull`: staging file size (Seek to end) strictly greater than
2048000 bytes. -/
def Bucket.isFull (c : Codec) (b : Bucket) : Bool :=
  c.rowsSize b.fileContent > 2048000

/-- `Bucket.Unzip`: digest the compressed bytes; on mismatch with the
recorded zipped checksum, fail (staging untouched); otherwise decompress
into the staging file, replacing its content.  Operations return the
post-state together with an optional error, because in the Go code
mutations made before an error persist on the receiver. -/
def Bucket.unzip (c : Codec) (b : Bucket) : Bucket × Option Err :=
  if b.zippedHash ≠ c.md5b b.zippedContent then
    (b, some (.invalidZippedChecksum b.remoteFilePath))
  else
    match c.inflate b.zippedContent with
    | none => (b, some .zlibError)
    | some rows => ({ b with fileContent := rows }, none)

/-- The row loop of `Bucket.VerifyUnzipped`: each row first goes to the
caller-supplied validator (receiving the bucket state with the patches
accumulated so far, as the Go code passes the mutating receiver), then the
two-column minimum is enforced, then a `DefaultPatch` is materialized
(first column action, second key, rest values). -/
def Bucket.verifyRows (v : Validation) (b : Bucket) : Rows → Bucket × Option Err
  | [] => (b, none)
  | line :: rest =>
    match v line b with
    | some msg => (b, some (.validationError msg))
    | none =>
      match line with
      | a :: k :: vs =>
        Bucket.verifyRows v
          { b with patches := b.patches ++ [{ action := a, key := k, values := vs }] } rest
      | _ => (b, some (.malformedRow b.remoteFilePath))

/-- `Bucket.VerifyUnzipped`: staging checksum check, then the row loop. -/
def Bucket.verifyUnzipped (v : Validation) (c : Codec) (b : Bucket) : Bucket × Option Err :=
  if b.unzippedHash ≠ c.md5r b.fileContent then
    (b, some (.invalidUnzippedChecksum b.remoteFilePath))
  else
    Bucket.verifyRows v b b.fileContent

/-- Result of the storage backend's `DownloadWriter` call. -/
inductive FetchResult where
  | notFound
  | failure (msg : String)
  | fetched (content : Bytes)
deriving Repr, DecidableEq

/-- The tail of `Bucket.Download` after the fetch: `Unzip`, then
`VerifyUnzipped`. -/
def Bucket.downloadSteps (v : Validation) (c : Codec) (b : Bucket) : Bucket × Option Err :=
  match Bucket.unzip c b with
  | (b1, some er) => (b1, some er)
  | (b1, none) => Bucket.verifyUnzipped v c b1

/-- `Bucket.Download`: truncate the compressed artifact, fetch into it;
`storage.ErrObjectNotExist` is tolerated (the artifact stays empty), any
other backend error is returned; then decompress and verify. -/
def Bucket.download (v : Validation) (c : Codec) (fetch : FetchResult) (b : Bucket) :
    Bucket × Option Err :=
  let b0 := { b with zippedContent := ([] : Bytes) }
  match fetch with
  | .failure msg => (b0, some (.storageError msg))
  | .notFound => Bucket.downloadSteps v c b0
  | .fetched content => Bucket.downloadSteps v c { b0 with zippedContent := content }

/-- `Bucket.Compress`: truncate and regenerate the compressed artifact from
the current staging content. -/
def Bucket.compress (c : Codec) (b : Bucket) : Bucket :=
  { b with zippedContent := c.deflate b.fileContent }

/-- The validator loop of `Bucket.VerifyZipped` (no state mutation). -/
def runValidator (v : Validation) (b : Bucket) : Rows → Option Err
  | [] => none
  | line :: rest =>
    match v line b with
    | some msg => some (.validationError msg)
    | none => runValidator v b rest

/-- `Bucket.VerifyZipped` (round trip): decompress the just-produced
compressed artifact and re-run every row through the validator. -/
def Bucket.verifyZipped (v : Validation) (c : Codec) (b : Bucket) : Option Err :=
  match c.inflate b.zippedContent with
  | none => some .zlibError
  | some rows => runValidator v b rows

/-- `Bucket.Hash`: recompute both checksums from current contents. -/
def Bucket.hashB (c : Codec) (b : Bucket) : Bucket :=
  { b with unzippedHash := c.md5r b.fileContent
           zippedHash := c.md5b b.zippedContent }

/-! ### Master: replay and wastage (master.go) -/

/-- The accumulating mapping of `CompileList`.  Go's `map[string][]string`
is modelled as an insertion-ordered association list with unique keys; the
Go map is unordered but determines the same key-to-values mapping. -/
abbrev KvMap := List (String × List String)

/-- `list[key] = values` on the modelled map. -/
def mapSet (m : KvMap) (k : String) (v : List String) : KvMap :=
  if m.any (fun p => p.1 == k) then
    m.map (fun p => if p.1 == k then (k, v) else p)
  else m ++ [(k, v)]

/-- `delete(list, key)` on the modelled map. -/
def mapDelete (m : KvMap) (k : String) : KvMap :=
  m.filter (fun p => p.1 != k)

/-- The `switch patch.GetAction()` body of `CompileList`; an unknown action
tag falls through with no effect. -/
def applyPatch (m : KvMap) (p : Patch) : KvMap :=
  match p.action with
  | "+" => mapSet m p.key p.values
  | "-" => mapDelete m p.key
  | "*" => ([] : KvMap)
  | _ => m

/-- `Master.CompileList`: iterate buckets in slice order, skip deleted
ones, apply each bucket's patches in log order. -/
def Master.compileList (m : Master) : KvMap :=
  m.buckets.foldl
    (fun acc b => if b.isDeleted then acc else b.patches.foldl applyPatch acc) []

/-- The `change` record of master.go. -/
structure Change where
  key : String
  bucketKey : Nat
  patchKey : Nat
deriving Repr, DecidableEq

/-- One step of building the `changes` map: `changes[key]` gets the change
appended (or a fresh singleton history).  Go's `map[string][]change` is
modelled as an insertion-ordered association list. -/
def insertChange (cs : List (String × List Change)) (ch : Change) :
    List (String × List Change) :=
  if cs.any (fun p => p.1 == ch.key) then
    cs.map (fun p => if p.1 == ch.key then (p.1, p.2 ++ [ch]) else p)
  else cs ++ [(ch.key, [ch])]

/-- The grouping pass of `Master.CalculateWastage`: nested loops over all
buckets (deleted ones included) and their patches, keyed by patch key. -/
def Master.changes (m : Master) : List (String × List Change) :=
  m.buckets.enum.foldl
    (fun acc bi =>
      bi.2.patches.enum.foldl
        (fun acc2 pi => insertChange acc2 { key := pi.2.key, bucketKey := bi.1, patchKey := pi.1 })
        acc)
    []

/-- The wastage-collection pass: for each history of length N>1, all N
changes are wasted when N is even, the first N-1 when N is odd.  Go
iterates the map in arbitrary order; only the length of the collected list
is ever used, so insertion order is a sound determinization. -/
def Master.wastageList (m : Master) : List Change :=
  m.changes.foldl
    (fun acc kh =>
      if kh.2.length > 1 then
        if kh.2.length % 2 == 0 then acc ++ kh.2 else acc ++ kh.2.dropLast
      else acc)
    []

/-- Binary length by repeated halving; the fuel (always sufficient when
it starts at n) keeps the recursion structural. -/
def bitlenAux : Nat → Nat → Nat
  | 0, _ => 0
  | _, 0 => 0
  | fuel + 1, n + 1 => bitlenAux fuel ((n + 1) / 2) + 1

/-- Binary length of a natural number (0 for 0). -/
def bitlen (n : Nat) : Nat := bitlenAux n n

/-- Nearest integer to A/B, ties to even (junk when B = 0). -/
def roundMantissa (A B : Nat) : Nat :=
  let n0 := A / B
  let r := A % B
  if 2 * r > B then n0 + 1
  else if 2 * r < B then n0
  else if n0 % 2 = 0 then n0 else n0 + 1

/-- The dyadic rational `n * 2^(posExp - negExp)` as a numerator and a
power-of-two denominator. -/
def mkDyadic (n negExp posExp : Nat) : Nat × Nat :=
  if negExp ≤ posExp then (n * 2 ^ (posExp - negExp), 1)
  else (n, 2 ^ (negExp - posExp))

/-- IEEE-754 binary64 rounding (round to nearest, ties to even) of a
nonnegative rational a/b, as an exact dyadic rational: the quotient is
scaled by a power of two into [2^52, 2^54), brought into the 53-bit
binade, and rounded at its last place — exactly the binary64 result
whenever that result is finite and normal.  Subnormal and overflowing
quotients (a ratio below 2^-1022 or at least 2^1024) and the NaN/Inf of
x/0 are not modelled; none is reachable from the byte counts and list
lengths this code feeds in. -/
def round53 (a b : Nat) : Nat × Nat :=
  if a = 0 ∨ b = 0 then (0, 1)
  else
    let la := bitlen a
    let lb := bitlen b
    let A := a * 2 ^ (53 + lb)
    let B := b * 2 ^ la
    if A / B < 2 ^ 53 then mkDyadic (roundMantissa A B) (53 + lb) la
    else mkDyadic (roundMantissa A (B * 2)) (53 + lb) (la + 1)

/-- `int((float64(w) / float64(d)) * 100)` exactly as Go computes it: both
operands are converted to binary64 (a rounding when they reach 2^53), the
quotient takes one binary64 rounding, the product with 100 another, and
the result is truncated toward zero.  Each step is the exact IEEE-754
binary64 operation (see `round53`). -/
def goFloatPercent (w d : Nat) : Nat :=
  let fw := round53 w 1
  let fd := round53 d 1
  let q := round53 (fw.1 * fd.2) (fw.2 * fd.1)
  let p := round53 (q.1 * 100) q.2
  p.1 / p.2

/-- `Master.CalculateWastage`'s result:
`int((float64(len(wastage)) / float64(len(changes))) * 100)`, computed
with exact binary64 semantics (so the double rounding of the quotient and
the product is reproduced faithfully). -/
def Master.calculateWastage (m : Master) : Nat :=
  goFloatPercent m.wastageList.length m.changes.length

/-! ### Master.AddPatch (master.go) -/

/-- The max-search loop of `Master.AddPatch`: running maximum starts at 0,
`latestBucket` (modelled as an index into the slice) is updated whenever a
bucket's number is strictly greater than the running maximum. -/
def latestLoop : List Bucket → Nat → Int × Option Nat → Int × Option Nat
  | [], _, acc => acc
  | b :: rest, i, (mx, li) =>
    if b.number > mx then latestLoop rest (i + 1) (b.number, some i)
    else latestLoop rest (i + 1) (mx, li)

/-- `maxBucketNumber` and the located latest bucket after the loop. -/
def latestIdx (bs : List Bucket) : Int × Option Nat :=
  latestLoop bs 0 (0, none)

/-- Replace the element at an index (models mutating through the
`latestBucket` pointer). -/
def modifyAt (l : List Bucket) (i : Nat) (f : Bucket → Bucket) : List Bucket :=
  match l.get? i with
  | some b => l.set i (f b)
  | none => l

/-- `Master.AddPatch`: find the highest-numbered bucket; if none exists or
it is full, create and append a fresh bucket numbered one above the
maximum; then append the patch to the current bucket. -/
def Master.addPatch (c : Codec) (p : Patch) (m : Master) : Master :=
  let r := latestIdx m.buckets
  let full : Bool :=
    match r.2 with
    | some i =>
      match m.buckets.get? i with
      | some b => b.isFull c
      | none => false
    | none => false
  if r.2.isNone || full then
    let nb := newBucket m.storageBucketName "" "" m.dir (r.1 + 1) "" "" 0
    { m with buckets := m.buckets ++ [nb.addPatchB p] }
  else
    match r.2 with
    | some i => { m with buckets := modifyAt m.buckets i (Bucket.addPatchB p) }
    | none => m

/-! ### Categories operations (categories source file) -/

/-- `Categories.Write`: truncate the snapshot and serialize
`{id, category, subcategory, description}` for every configured item, in
configured order (the other three declared accessors are never
serialized). -/
def Categories.write (c : Categories) : Categories :=
  { c with fileContent :=
      c.categoryItems.map (fun d => [toString d.id, d.category, d.subcategory, d.description]) }

/-- `Categories.IsChanged`: fresh digest of the staging content differs
from the recorded unzipped checksum. -/
def Categories.isChanged (cd : Codec) (c : Categories) : Bool :=
  cd.md5r c.fileContent != c.unzippedHash

/-- `Categories.Compress`. -/
def Categories.compress (cd : Codec) (c : Categories) : Categories :=
  { c with zippedContent := cd.deflate c.fileContent }

/-- `Categories.Hash`. -/
def Categories.hashC (cd : Codec) (c : Categories) : Categories :=
  { c with unzippedHash := cd.md5r c.fileContent
           zippedHash := cd.md5b c.zippedContent }

/-! ### Master.UploadToStorageBucket (master.go) -/

/-- The categories descriptor row written into the master document (`-1`,
relative path, codec, hashes, count of the master's configured items). -/
def catRow (itemCount : Nat) (c : Categories) : List String :=
  ["-1", c.relativeFilePath, "zlib", c.zippedHash, c.unzippedHash, toString itemCount]

/-- The per-bucket descriptor row written into the master document. -/
def bucketRow (b : Bucket) : List String :=
  [toString b.number, b.relativeFilePath, "zlib", b.zippedHash, b.unzippedHash,
    toString b.patches.length]

/-- The transformation the categories snapshot undergoes when it changed:
compress, hash, relocate to the timestamp-qualified remote name. -/
def publishedCat (cd : Codec) (remoteDir : String) (now : Int) (cat : Categories) : Categories :=
  let c2 := (cat.write.compress cd).hashC cd
  let rel := toString now ++ "-" ++ c2.zippedFileName
  { c2 with relativeFilePath := rel, remoteFilePath := joinPath [remoteDir, rel] }

/-- The categories block of `Master.UploadToStorageBucket`: rewrite the
snapshot; only when `IsChanged` compress, hash, relocate to a
timestamp-qualified remote name and upload (note: the Go code performs no
round-trip verification here, unlike the bucket block); in both cases
produce exactly one descriptor row from the current path/hashes.  Returns
the updated categories, the rows written, and the remote paths uploaded. -/
def catSection (cd : Codec) (remoteDir : String) (itemCount : Nat) (now : Int) :
    Option Categories → Option Categories × List (List String) × List String
  | none => (none, [], [])
  | some cat =>
    let c1 := cat.write
    if c1.isChanged cd then
      let c3 := publishedCat cd remoteDir now cat
      (some c3, [catRow itemCount c3], [c3.remoteFilePath])
    else
      (some c1, [catRow itemCount c1], [])

/-- The transformation a bucket undergoes during publish when it is
changed: compress, hash, relocate to the timestamp-qualified name (the
round-trip verification between compress and hash does not alter the
bucket). -/
def publishedBucket (cd : Codec) (remoteDir : String) (now : Int) (b : Bucket) : Bucket :=
  if b.isChanged then
    let b2 := (b.compress cd).hashB cd
    let rel := toString now ++ "-" ++ b2.zippedFileName
    { b2 with relativeFilePath := rel, remoteFilePath := joinPath [remoteDir, rel] }
  else b

/-- The bucket loop of `Master.UploadToStorageBucket`: skip deleted
buckets entirely; for a changed bucket compress, round-trip verify
(`VerifyZipped`, whose failure aborts the publish), hash, relocate,
upload; in all non-deleted cases write the descriptor row.  Returns the
updated bucket list, the descriptor rows in order, and the uploaded remote
paths in order. -/
def publishBuckets (v : Validation) (cd : Codec) (remoteDir : String) (now : Int) :
    List Bucket → Except Err (List Bucket × List (List String) × List String)
  | [] => .ok ([], [], [])
  | b :: rest =>
    if b.isDeleted then
      match publishBuckets v cd remoteDir now rest with
      | .error e => .error e
      | .ok (bs, rs, us) => .ok (b :: bs, rs, us)
    else
      if b.isChanged then
        let b1 := b.compress cd
        match b1.verifyZipped v cd with
        | some er => .error er
        | none =>
          let b3 := publishedBucket cd remoteDir now b
          match publishBuckets v cd remoteDir now rest with
          | .error e => .error e
          | .ok (bs, rs, us) =>
            .ok (b3 :: bs, bucketRow b3 :: rs, b3.remoteFilePath :: us)
      else
        match publishBuckets v cd remoteDir now rest with
        | .error e => .error e
        | .ok (bs, rs, us) => .ok (b :: bs, bucketRow b :: rs, us)

/-- The observable outcome of a publish: the updated master, the rows of
the rewritten master document, and the remote paths uploaded, in order. -/
structure PublishResult where
  master : Master
  rows : List (List String)
  uploads : List String
deriving Repr, DecidableEq

/-- `Master.UploadToStorageBucket`: stamp the publish time, rewrite the
header row, run the categories block, run the bucket loop, and finally
upload the master document itself at its fixed remote path (the storage
writes themselves are modelled as succeeding; all modelled failures come
from the verification steps). -/
def Master.uploadToStorageBucket (v : Validation) (cd : Codec) (now : Int)
    (nowFmt : String) (m : Master) : Except Err PublishResult :=
  let header : List String := ["V1", toString now, nowFmt]
  let cs := catSection cd m.remoteDir m.categoryItems.length now m.categories
  match publishBuckets v cd m.remoteDir now m.buckets with
  | .error e => .error e
  | .ok (bs, brows, bups) =>
    .ok { master := { m with unixTime := now, dateTime := nowFmt,
                             categories := cs.1, buckets := bs }
          rows := header :: (cs.2.1 ++ brows)
          uploads := cs.2.2 ++ bups ++ [joinPath [m.remoteDir, m.fileName]] }

/-! ### Master.CleanupOldFiles (master.go) -/

/-- One entry of the storage listing (`storage.ObjectAttrs`): object name
and creation time, the latter modelled in unix seconds. -/
structure RemoteFile where
  name : String
  created : Int
deriving Repr, DecidableEq

/-- The `found` test of `CleanupOldFiles`: the object is the categories
artifact, some bucket's artifact, or the master document itself. -/
def referenced (m : Master) (name : String) : Bool :=
  (match m.categories with
   | some c => name == c.remoteFilePath
   | none => false)
  || m.buckets.any (fun b => name == b.remoteFilePath)
  || name == m.remoteDir ++ "/" ++ m.fileName

/-- `Master.CleanupOldFiles`: delete every listed object that is
unreferenced and was created strictly more than 24 hours (86400 seconds)
ago.  Returns the names deleted, in order (`time.Now()` is modelled as the
single instant `now`; the storage deletes are modelled as succeeding). -/
def Master.cleanupOldFiles (now : Int) (files : List RemoteFile) (m : Master) :
    List String :=
  files.foldl
    (fun acc f =>
      if !referenced m f.name && f.created < now - 86400 then acc ++ [f.name] else acc)
    []

/-! ### Go strconv semantics and the Master.Download parse loop -/

/-- Decimal digit accumulation for a nonempty all-digit string. -/
def decDigits (cs : List Char) : Option Nat :=
  if cs.isEmpty then none
  else
    cs.foldl
      (fun acc ch =>
        match acc with
        | none => none
        | some n => if ch.isDigit then some (n * 10 + (ch.toNat - 48)) else none)
      (some 0)

/-- Base-10 integer syntax of `strconv.ParseInt`: an optional sign followed
by one or more ASCII digits. -/
def goParseIntSyntax (s : String) : Option Int :=
  match s.toList with
  | [] => none
  | '+' :: rest => (decDigits rest).map (fun n => (n : Int))
  | '-' :: rest => (decDigits rest).map (fun n => -(n : Int))
  | l => (decDigits l).map (fun n => (n : Int))

/-- Clamp to the 64-bit signed range, as `strconv` does on a range error. -/
def clamp64 (n : Int) : Int :=
  if n > 9223372036854775807 then 9223372036854775807
  else if n < -9223372036854775808 then -9223372036854775808
  else n

/-- `strconv.Atoi` / `strconv.ParseInt(s, 10, 64)` as the Go call sites use
it: the returned value (0 on a syntax error, the clamped extremum on a
range error) paired with whether the error was nil. -/
def goAtoi (s : String) : Int × Bool :=
  match goParseIntSyntax s with
  | none => (0, false)
  | some n =>
    if n > 9223372036854775807 ∨ n < -9223372036854775808 then (clamp64 n, false)
    else (n, true)

/-- The outcome of the inline categories construction in `Master.Download`
(a `-1` row runs `Categories.Init` and `Categories.Download`, which touch
storage); supplied as a parameter of the parse model. -/
abbrev CatDownload := String → String → String → Option Err

/-- One iteration of the `Master.Download` parse loop.  A 3-column row is
the header (the `ParseInt` error is discarded, so a bad timestamp leaves
0); a 6-column row is the categories descriptor when its first column
reads -1 (`Atoi` errors discarded), otherwise a bucket descriptor — whose
count column's `Atoi` error IS checked and returned; every other column
count is skipped. -/
def Master.processLine (catDL : CatDownload) (m : Master) (line : List String) :
    Except Err Master :=
  match line with
  | [v, ts, dt] =>
    .ok { m with version := v, unixTime := (goAtoi ts).1, dateTime := dt }
  | [c0, c1, _c2, c3, c4, c5] =>
    let bucketNumber := (goAtoi c0).1
    if bucketNumber == -1 then
      match catDL c1 c3 c4 with
      | some er => .error er
      | none =>
        let cat := newCategories m.storageBucketName c1 (joinPath [m.remoteDir, c1]) m.dir c3 c4 m.categoryItems
        .ok { m with categories := some cat }
    else
      let lc := goAtoi c5
      if lc.2 then
        let nb := newBucket m.storageBucketName c1 (joinPath [m.remoteDir, c1]) m.dir bucketNumber c3 c4 lc.1
        .ok { m with buckets := m.buckets ++ [nb] }
      else .error (.atoiError c5)
  | _ => .ok m

/-- The whole parse loop of `Master.Download` over the fetched document's
rows (the HTTP/storage fetch and the CSV reader are abstracted to the row
sequence). -/
def Master.parseLines (catDL : CatDownload) (m : Master) : Rows → Except Err Master
  | [] => .ok m
  | l :: rest =>
    match Master.processLine catDL m l with
    | .error e => .error e
    | .ok m' => Master.parseLines catDL m' rest

/-! ### Spec-side formulations and concrete fixtures -/

/-- The replay algorithm as the spec words it: the patches of the
non-deleted shards, concatenated in master order, folded into the
accumulating mapping. -/
def specReplay (m : Master) : KvMap :=
  ((m.buckets.filter (fun b => !b.isDeleted)).flatMap Bucket.patches).foldl applyPatch []

/-- A minimal in-memory bucket holding a given number and patch list. -/
def mkTestBucket (n : Int) (ps : List Patch) : Bucket :=
  { newBucket "sb" "" "" "d" n "" "" 0 with patches := ps }

/-- A minimal in-memory master over the given buckets. -/
def mkTestMaster (bs : List Bucket) : Master :=
  { storageBucketName := "sb", remoteDir := "rd", dir := "d", fileName := "master.csv",
    isPublic := false, version := "", unixTime := 0, dateTime := "",
    categoryItems := [], categories := none, buckets := bs }

/-- The two-shard fixture of the replay-determinism property:
`[{Set(A,[1])},{Set(B,[2])},{Delete(A)}]` then `[{ClearAll},{Set(C,[3])}]`. -/
def replayExampleMaster : Master :=
  mkTestMaster
    [mkTestBucket 1 [⟨"+", "A", ["1"]⟩, ⟨"+", "B", ["2"]⟩, ⟨"-", "A", []⟩],
     mkTestBucket 2 [⟨"*", "", []⟩, ⟨"+", "C", ["3"]⟩]]

/-! ### C1: CompileList replays in order, skipping deleted shards -/

theorem compileList_foldl_eq (bs : List Bucket) (acc : KvMap) :
    bs.foldl (fun a b => if b.isDeleted then a else b.patches.foldl applyPatch a) acc
      = ((bs.filter (fun b => !b.isDeleted)).flatMap Bucket.patches).foldl applyPatch acc := by
  induction bs generalizing acc with
  | nil => rfl
  | cons b rest ih =>
    by_cases hd : b.isDeleted
    · simp [List.foldl_cons, hd, ih, List.filter_cons]
    · simp [List.foldl_cons, hd, ih, List.filter_cons, List.foldl_append]

/-- C1: `CompileList` iterates shards in master order, skips shards whose
deleted flag is set, and applies each shard's patches in log order to the
accumulating map (`+` sets, `-` removes, `*` clears); on the two-shard
fixture `[{Set(A,[1])},{Set(B,[2])},{Delete(A)}]` then
`[{ClearAll},{Set(C,[3])}]` the result is exactly `{C:[3]}`. -/
theorem c1_compileList_replay :
    (∀ m : Master, m.compileList = specReplay m) ∧
      replayExampleMaster.compileList = [("C", ["3"])] := by
  constructor
  · intro m
    exact compileList_foldl_eq m.buckets []
  · decide

/-! ### C4: Unzip verifies the compressed digest before decompressing -/

/-- C4: `Unzip` digests the compressed bytes first; on a mismatch with the
recorded zipped checksum it returns an integrity error and the staging
content is untouched; only on a match is the staging content replaced by
the decompressed bytes. -/
theorem c4_unzip_checksum_gate (c : Codec) (b : Bucket) :
    (b.zippedHash ≠ c.md5b b.zippedContent →
      b.unzip c = (b, some (Err.invalidZippedChecksum b.remoteFilePath))) ∧
    (b.zippedHash = c.md5b b.zippedContent →
      ∀ rows, c.inflate b.zippedContent = some rows →
        b.unzip c = ({ b with fileContent := rows }, none)) := by
  constructor
  · intro h
    simp [Bucket.unzip, h]
  · intro h rows hr
    simp [Bucket.unzip, h, hr]

/-- A concrete codec instance for witnesses: digests are the printed
contents, decompression parses each byte as one two-column row. -/
def testCodec : Codec where
  md5r := fun rows => toString rows
  md5b := fun bs => toString bs
  deflate := fun rows => rows.map (fun r => r.length)
  inflate := fun bs => some (bs.map (fun n => ["+", toString n]))
  rowsSize := fun rows => (rows.map (fun r => (r.map String.length).sum + r.length)).sum

/-- A validator that accepts every row. -/
def vOk : Validation := fun _ _ => none

/-- A bucket whose recorded zipped checksum does not match its compressed
bytes. -/
def c4BadBucket : Bucket :=
  { newBucket "sb" "" "p" "d" 1 "nope" "" 0 with zippedContent := [2] }

/-- A bucket whose recorded zipped checksum matches its compressed bytes
under `testCodec`. -/
def c4GoodBucket : Bucket :=
  { newBucket "sb" "" "p" "d" 1 (toString ([2] : Bytes)) "" 0 with zippedContent := [2] }

theorem c4_witness :
    c4BadBucket.unzip testCodec
      = (c4BadBucket, some (Err.invalidZippedChecksum "p")) ∧
    c4GoodBucket.unzip testCodec
      = ({ c4GoodBucket with fileContent := [["+", "2"]] }, none) :=
  ⟨(c4_unzip_checksum_gate testCodec c4BadBucket).1 (by decide),
   (c4_unzip_checksum_gate testCodec c4GoodBucket).2 (by decide) _ (by decide)⟩

/-! ### C5: VerifyUnzipped parses rows into patches in file order -/

/-- The patch a well-formed row materializes, as the spec words it. -/
def rowPatch (line : List String) : Patch :=
  match line with
  | a :: k :: vs => { action := a, key := k, values := vs }
  | _ => { action := "", key := "", values := [] }

theorem verifyRows_all_ok (v : Validation) (hv : ∀ line b', v line b' = none) :
    ∀ (rows : Rows) (b : Bucket), (∀ line ∈ rows, 2 ≤ line.length) →
      Bucket.verifyRows v b rows
        = ({ b with patches := b.patches ++ rows.map rowPatch }, none) := by
  intro rows
  induction rows with
  | nil => intro b _; simp [Bucket.verifyRows]
  | cons line rest ih =>
    intro b hlen
    match line, hlen line (List.mem_cons_self _ _) with
    | a :: k :: vs, _ =>
      rw [Bucket.verifyRows, hv]
      rw [ih _ (fun l hl => hlen l (List.mem_cons_of_mem _ hl))]
      simp [rowPatch]

theorem verifyRows_short_row (v : Validation) (hv : ∀ line b', v line b' = none) :
    ∀ (rows : Rows) (b : Bucket), (∃ line ∈ rows, line.length < 2) →
      (Bucket.verifyRows v b rows).2 = some (Err.malformedRow b.remoteFilePath) := by
  intro rows
  induction rows with
  | nil => intro b h; simp at h
  | cons line rest ih =>
    intro b h
    rcases h with ⟨l, hl, hshort⟩
    rcases List.mem_cons.mp hl with h1 | hmem
    · subst h1
      rcases l with _ | ⟨a, _ | ⟨k, vs⟩⟩
      · simp [Bucket.verifyRows, hv]
      · simp [Bucket.verifyRows, hv]
      · rw [List.length_cons, List.length_cons] at hshort
        omega
    · rcases line with _ | ⟨a, _ | ⟨k, vs⟩⟩
      · simp [Bucket.verifyRows, hv]
      · simp [Bucket.verifyRows, hv]
      · simp only [Bucket.verifyRows, hv]
        exact ih _ ⟨l, hmem, hshort⟩

theorem verifyRows_validator_rejects (v : Validation) :
    ∀ (pre : Rows) (r : List String) (post : Rows) (b : Bucket) (msg : String),
      (∀ line ∈ pre, ∀ b', v line b' = none) → (∀ line ∈ pre, 2 ≤ line.length) →
      (∀ b', v r b' = some msg) →
      Bucket.verifyRows v b (pre ++ r :: post)
        = ({ b with patches := b.patches ++ pre.map rowPatch },
           some (Err.validationError msg)) := by
  intro pre
  induction pre with
  | nil =>
    intro r post b msg _ _ hr
    simp [Bucket.verifyRows, hr]
  | cons line rest ih =>
    intro r post b msg hacc hlen hr
    match line, hlen line (List.mem_cons_self _ _) with
    | a :: k :: vs, _ =>
      rw [List.cons_append, Bucket.verifyRows, hacc _ (List.mem_cons_self _ _)]
      rw [ih r post _ msg (fun l hl => hacc l (List.mem_cons_of_mem _ hl))
            (fun l hl => hlen l (List.mem_cons_of_mem _ hl)) hr]
      simp [rowPatch]

/-- C5: given the staging checksum matches, the verify step passes each row
to the caller-supplied validator, fails with a malformed-row error on any
row with fewer than two columns, and otherwise materializes exactly one
patch per row — action from the first column, key from the second, values
from the rest (empty for a two-column row) — appended in file order. -/
theorem c5_verifyUnzipped_rows (v : Validation) (c : Codec) (b : Bucket)
    (hsum : b.unzippedHash = c.md5r b.fileContent) :
    ((∀ line b', v line b' = none) → (∀ line ∈ b.fileContent, 2 ≤ line.length) →
      b.verifyUnzipped v c
        = ({ b with patches := b.patches ++ b.fileContent.map rowPatch }, none)) ∧
    ((∀ line b', v line b' = none) → (∃ line ∈ b.fileContent, line.length < 2) →
      (b.verifyUnzipped v c).2 = some (Err.malformedRow b.remoteFilePath)) ∧
    (∀ pre r post msg, b.fileContent = pre ++ r :: post →
      (∀ line ∈ pre, ∀ b', v line b' = none) → (∀ line ∈ pre, 2 ≤ line.length) →
      (∀ b', v r b' = some msg) →
      b.verifyUnzipped v c
        = ({ b with patches := b.patches ++ pre.map rowPatch },
           some (Err.validationError msg))) := by
  refine ⟨?_, ?_, ?_⟩
  · intro hv hlen
    rw [Bucket.verifyUnzipped, if_neg (by simp [hsum])]
    exact verifyRows_all_ok v hv _ _ hlen
  · intro hv hex
    rw [Bucket.verifyUnzipped, if_neg (by simp [hsum])]
    exact verifyRows_short_row v hv _ _ hex
  · intro pre r post msg heq hacc hlen hr
    rw [Bucket.verifyUnzipped, if_neg (by simp [hsum])]
    have h := verifyRows_validator_rejects v pre r post b msg hacc hlen hr
    rw [← heq] at h
    exact h

/-- A bucket with a two-row staging log whose unzipped checksum matches
`testCodec`. -/
def c5Bucket : Bucket :=
  { newBucket "sb" "" "p" "d" 1 "" (toString ([["+", "k", "v"], ["-", "z"]] : Rows)) 0 with
      fileContent := [["+", "k", "v"], ["-", "z"]] }

theorem c5_witness :
    c5Bucket.verifyUnzipped vOk testCodec
      = ({ c5Bucket with patches :=
            [{ action := "+", key := "k", values := ["v"] },
             { action := "-", key := "z", values := [] }] }, none) := by
  have h := (c5_verifyUnzipped_rows vOk testCodec c5Bucket (by decide)).1
    (fun _ _ => rfl) (by decide)
  simpa [c5Bucket, rowPatch] using h

/-! ### C6: Download tolerates not-found, fails otherwise, always verifies -/

theorem verifyRows_preserves (v : Validation) :
    ∀ (rows : Rows) (b : Bucket),
      ((Bucket.verifyRows v b rows).1).fileContent = b.fileContent ∧
      ((Bucket.verifyRows v b rows).1).zippedContent = b.zippedContent ∧
      ((Bucket.verifyRows v b rows).1).zippedHash = b.zippedHash ∧
      ((Bucket.verifyRows v b rows).1).unzippedHash = b.unzippedHash := by
  intro rows
  induction rows with
  | nil => intro b; simp [Bucket.verifyRows]
  | cons line rest ih =>
    intro b
    cases hveq : v line b with
    | some msg => simp [Bucket.verifyRows, hveq]
    | none =>
      rcases line with _ | ⟨a, _ | ⟨k, vs⟩⟩
      · simp [Bucket.verifyRows, hveq]
      · simp [Bucket.verifyRows, hveq]
      · simp only [Bucket.verifyRows, hveq]
        exact ih _

theorem unzip_mismatch (c : Codec) (b : Bucket)
    (h : b.zippedHash ≠ c.md5b b.zippedContent) :
    b.unzip c = (b, some (Err.invalidZippedChecksum b.remoteFilePath)) := by
  simp [Bucket.unzip, h]

theorem unzip_decode_fail (c : Codec) (b : Bucket)
    (h : b.zippedHash = c.md5b b.zippedContent) (hr : c.inflate b.zippedContent = none) :
    b.unzip c = (b, some Err.zlibError) := by
  simp [Bucket.unzip, h, hr]

theorem unzip_match (c : Codec) (b : Bucket) (rows : Rows)
    (h : b.zippedHash = c.md5b b.zippedContent) (hr : c.inflate b.zippedContent = some rows) :
    b.unzip c = ({ b with fileContent := rows }, none) := by
  simp [Bucket.unzip, h, hr]

theorem downloadSteps_of_unzip_err (v : Validation) (c : Codec) (b b1 : Bucket) (er : Err)
    (h : b.unzip c = (b1, some er)) :
    Bucket.downloadSteps v c b = (b1, some er) := by
  rw [Bucket.downloadSteps, h]

theorem downloadSteps_of_unzip_ok (v : Validation) (c : Codec) (b b1 : Bucket)
    (h : b.unzip c = (b1, none)) :
    Bucket.downloadSteps v c b = Bucket.verifyUnzipped v c b1 := by
  rw [Bucket.downloadSteps, h]

theorem verifyUnzipped_success (v : Validation) (c : Codec) (b1 b' : Bucket)
    (h : Bucket.verifyUnzipped v c b1 = (b', none)) :
    b1.unzippedHash = c.md5r b1.fileContent ∧
      Bucket.verifyRows v b1 b1.fileContent = (b', none) := by
  by_cases hu : b1.unzippedHash = c.md5r b1.fileContent
  · rw [Bucket.verifyUnzipped, if_neg (not_not_intro hu)] at h
    exact ⟨hu, h⟩
  · rw [Bucket.verifyUnzipped, if_pos hu] at h
    simp at h

theorem downloadSteps_success (v : Validation) (c : Codec) (b0 b' : Bucket)
    (h : Bucket.downloadSteps v c b0 = (b', none)) :
    b0.zippedHash = c.md5b b'.zippedContent ∧
    c.inflate b'.zippedContent = some b'.fileContent ∧
    b0.unzippedHash = c.md5r b'.fileContent := by
  by_cases hz : b0.zippedHash = c.md5b b0.zippedContent
  · cases hinf : c.inflate b0.zippedContent with
    | none =>
      rw [downloadSteps_of_unzip_err v c b0 b0 Err.zlibError (unzip_decode_fail c b0 hz hinf)] at h
      simp at h
    | some rows =>
      rw [downloadSteps_of_unzip_ok v c b0 _ (unzip_match c b0 rows hz hinf)] at h
      obtain ⟨hu, hvr⟩ := verifyUnzipped_success v c _ b' h
      obtain ⟨hf, hzc, hzh, huh⟩ :=
        verifyRows_preserves v ({ b0 with fileContent := rows } : Bucket).fileContent
          { b0 with fileContent := rows }
      rw [hvr] at hf hzc hzh huh
      have hf' : b'.fileContent = rows := hf
      have hzc' : b'.zippedContent = b0.zippedContent := hzc
      refine ⟨?_, ?_, ?_⟩
      · rw [hzc']
        exact hz
      · rw [hzc', hf']
        exact hinf
      · rw [hf']
        exact hu
  · rw [downloadSteps_of_unzip_err v c b0 b0 _ (unzip_mismatch c b0 hz)] at h
    simp at h

/-- C6: a not-found fetch is tolerated — the operation proceeds with an
empty compressed artifact through decompression and verification — while
any other backend failure is returned; and whenever the download returns
no error, the compressed digest matched, decompression produced the
staging content, and the staging digest matched. -/
theorem c6_download_fetch (v : Validation) (c : Codec) (fetch : FetchResult) (b : Bucket) :
    (∀ msg, fetch = .failure msg →
      b.download v c fetch
        = ({ b with zippedContent := ([] : Bytes) }, some (Err.storageError msg))) ∧
    (fetch = .notFound →
      b.download v c fetch
        = Bucket.downloadSteps v c { b with zippedContent := ([] : Bytes) }) ∧
    (∀ content, fetch = .fetched content →
      b.download v c fetch = Bucket.downloadSteps v c { b with zippedContent := content }) ∧
    (∀ b', b.download v c fetch = (b', none) →
      b.zippedHash = c.md5b b'.zippedContent ∧
      c.inflate b'.zippedContent = some b'.fileContent ∧
      b.unzippedHash = c.md5r b'.fileContent) := by
  refine ⟨?_, ?_, ?_, ?_⟩
  · intro msg hf
    subst hf
    rfl
  · intro hf
    subst hf
    rfl
  · intro content hf
    subst hf
    rfl
  · intro b' h
    cases fetch with
    | failure msg => simp [Bucket.download] at h
    | notFound =>
      exact downloadSteps_success v c { b with zippedContent := ([] : Bytes) } b' h
    | fetched content =>
      exact downloadSteps_success v c { b with zippedContent := content } b' h

/-- A bucket whose recorded checksums match empty compressed and staging
content under `testCodec`. -/
def c6Bucket : Bucket :=
  newBucket "sb" "" "p" "d" 1 (toString ([] : Bytes)) (toString ([] : Rows)) 0

theorem c6_witness :
    c6Bucket.download vOk testCodec .notFound
      = ({ c6Bucket with zippedContent := ([] : Bytes), fileContent := ([] : Rows) }, none) := by
  have h := (c6_download_fetch vOk testCodec .notFound c6Bucket).2.1 rfl
  rw [h]
  decide

/-! ### C3: AddPatch appends to the maximal shard or rolls over -/

/-- The value of `maxBucketNumber` after the search loop of
`Master.AddPatch` (running maximum over the shard numbers, started at 0). -/
def maxNumber (bs : List Bucket) : Int :=
  bs.foldl (fun a b => if b.number > a then b.number else a) 0

theorem latestLoop_fst : ∀ (bs : List Bucket) (i : Nat) (mx : Int) (li : Option Nat),
    (latestLoop bs i (mx, li)).1
      = bs.foldl (fun a b => if b.number > a then b.number else a) mx := by
  intro bs
  induction bs with
  | nil => intro i mx li; rfl
  | cons b rest ih =>
    intro i mx li
    by_cases hgt : b.number > mx
    · simp only [latestLoop, List.foldl_cons, hgt, if_true, ih]
    · simp only [latestLoop, List.foldl_cons, hgt, if_false, ih]

theorem latestLoop_snd : ∀ (bs : List Bucket) (i : Nat) (mx : Int) (li : Option Nat),
    ((latestLoop bs i (mx, li)).2 = li ∧ (latestLoop bs i (mx, li)).1 = mx)
    ∨ ∃ k, ∃ hk : k < bs.length,
        (latestLoop bs i (mx, li)).2 = some (i + k)
        ∧ (bs.get ⟨k, hk⟩).number = (latestLoop bs i (mx, li)).1 := by
  intro bs
  induction bs with
  | nil => intro i mx li; exact Or.inl ⟨rfl, rfl⟩
  | cons b rest ih =>
    intro i mx li
    by_cases hgt : b.number > mx
    · have hred : latestLoop (b :: rest) i (mx, li) = latestLoop rest (i + 1) (b.number, some i) := by
        simp [latestLoop, hgt]
      rcases ih (i + 1) b.number (some i) with ⟨h2, h1⟩ | ⟨k, hk, h2, h1⟩
      · right
        refine ⟨0, by simp, ?_, ?_⟩
        · rw [hred, h2]
          simp
        · rw [hred, h1]
          rfl
      · right
        refine ⟨k + 1, by simpa using Nat.succ_lt_succ hk, ?_, ?_⟩
        · rw [hred, h2]
          congr 1
          omega
        · rw [hred]
          simpa using h1
    · have hred : latestLoop (b :: rest) i (mx, li) = latestLoop rest (i + 1) (mx, li) := by
        simp [latestLoop, hgt]
      rcases ih (i + 1) mx li with ⟨h2, h1⟩ | ⟨k, hk, h2, h1⟩
      · left
        rw [hred]
        exact ⟨h2, h1⟩
      · right
        refine ⟨k + 1, by simpa using Nat.succ_lt_succ hk, ?_, ?_⟩
        · rw [hred, h2]
          congr 1
          omega
        · rw [hred]
          simpa using h1

theorem foldl_max_le_init : ∀ (bs : List Bucket) (mx : Int),
    mx ≤ bs.foldl (fun a b => if b.number > a then b.number else a) mx := by
  intro bs
  induction bs with
  | nil => intro mx; simp
  | cons b rest ih =>
    intro mx
    rw [List.foldl_cons]
    refine le_trans ?_ (ih _)
    by_cases hgt : b.number > mx
    · rw [if_pos hgt]
      omega
    · rw [if_neg hgt]

theorem foldl_max_mem_le : ∀ (bs : List Bucket) (mx : Int) (b : Bucket), b ∈ bs →
    b.number ≤ bs.foldl (fun a b => if b.number > a then b.number else a) mx := by
  intro bs
  induction bs with
  | nil => intro mx b hb; simp at hb
  | cons hd rest ih =>
    intro mx b hb
    rcases List.mem_cons.mp hb with h1 | hmem
    · subst h1
      rw [List.foldl_cons]
      refine le_trans ?_ (foldl_max_le_init rest _)
      by_cases hgt : b.number > mx
      · rw [if_pos hgt]
      · rw [if_neg hgt]
        omega
    · rw [List.foldl_cons]
      exact ih _ b hmem

theorem latestIdx_spec (bs : List Bucket) :
    (latestIdx bs).1 = maxNumber bs ∧
    (((latestIdx bs).2 = none ∧ maxNumber bs = 0)
      ∨ ∃ k, ∃ hk : k < bs.length,
          (latestIdx bs).2 = some k ∧ (bs.get ⟨k, hk⟩).number = maxNumber bs) := by
  have h1 : (latestLoop bs 0 (0, none)).1 = maxNumber bs := latestLoop_fst bs 0 0 none
  have h2 := latestLoop_snd bs 0 0 none
  refine ⟨h1, ?_⟩
  rcases h2 with ⟨ha, hb⟩ | ⟨k, hk, ha, hb⟩
  · exact Or.inl ⟨ha, by rw [← h1, hb]⟩
  · exact Or.inr ⟨k, hk, by simpa using ha, by rw [hb, h1]⟩

theorem addPatch_cases (c : Codec) (p : Patch) (m : Master) :
    ((latestIdx m.buckets).2 = none ∧ maxNumber m.buckets = 0 ∧
      (m.addPatch c p).buckets = m.buckets ++
        [Bucket.addPatchB p
          (newBucket m.storageBucketName "" "" m.dir (maxNumber m.buckets + 1) "" "" 0)])
    ∨ (∃ k, ∃ hk : k < m.buckets.length, (latestIdx m.buckets).2 = some k ∧
        (m.buckets.get ⟨k, hk⟩).number = maxNumber m.buckets ∧
        (((m.buckets.get ⟨k, hk⟩).isFull c = true ∧
           (m.addPatch c p).buckets = m.buckets ++
             [Bucket.addPatchB p
               (newBucket m.storageBucketName "" "" m.dir (maxNumber m.buckets + 1) "" "" 0)])
         ∨ ((m.buckets.get ⟨k, hk⟩).isFull c = false ∧
           (m.addPatch c p).buckets
             = m.buckets.set k (Bucket.addPatchB p (m.buckets.get ⟨k, hk⟩))))) := by
  obtain ⟨hfst, hsnd⟩ := latestIdx_spec m.buckets
  rcases hsnd with ⟨hnone, hmax0⟩ | ⟨k, hk, hsome, hnum⟩
  · left
    refine ⟨hnone, hmax0, ?_⟩
    simp [Master.addPatch, hnone, hfst]
  · right
    have hget : m.buckets[k]? = some (m.buckets.get ⟨k, hk⟩) := by
      rw [List.get_eq_getElem]
      exact List.getElem?_eq_getElem hk
    refine ⟨k, hk, hsome, hnum, ?_⟩
    cases hfull : (m.buckets.get ⟨k, hk⟩).isFull c with
    | true =>
      left
      refine ⟨rfl, ?_⟩
      have hfull' : Bucket.isFull c (m.buckets.get ⟨k, hk⟩) = true := hfull
      rw [List.get_eq_getElem] at hfull'
      simp [Master.addPatch, hsome, hget, hfull', hfst]
    | false =>
      right
      refine ⟨rfl, ?_⟩
      have hfull' : Bucket.isFull c (m.buckets.get ⟨k, hk⟩) = false := hfull
      rw [List.get_eq_getElem] at hfull'
      simp [Master.addPatch, hsome, hget, hfull', hfst, modifyAt, List.get_eq_getElem]

/-- C3: under the data-model invariant that every shard number is at least
1, `AddPatch` locates a shard carrying the greatest number whenever any
shard exists; with no shards it allocates shard 1 and appends the patch
there; when the located shard is full it allocates a shard numbered one
above the current maximum (strictly above every existing number) and the
patch goes to the new shard; when not full the patch is appended to the
located maximal shard; and a shard with a non-maximal number is never
modified. -/
theorem c3_addPatch_rollover (c : Codec) (p : Patch) (m : Master)
    (H : ∀ b ∈ m.buckets, 1 ≤ b.number) :
    (m.buckets ≠ [] → ∃ k, ∃ hk : k < m.buckets.length,
      (latestIdx m.buckets).2 = some k ∧
        (m.buckets.get ⟨k, hk⟩).number = maxNumber m.buckets) ∧
    (m.buckets = [] →
      (m.addPatch c p).buckets
        = [Bucket.addPatchB p (newBucket m.storageBucketName "" "" m.dir 1 "" "" 0)]) ∧
    (∀ k, ∀ hk : k < m.buckets.length, (latestIdx m.buckets).2 = some k →
      (m.buckets.get ⟨k, hk⟩).isFull c = true →
        (m.addPatch c p).buckets = m.buckets ++
          [Bucket.addPatchB p
            (newBucket m.storageBucketName "" "" m.dir (maxNumber m.buckets + 1) "" "" 0)]
        ∧ ∀ b ∈ m.buckets, b.number < maxNumber m.buckets + 1) ∧
    (∀ k, ∀ hk : k < m.buckets.length, (latestIdx m.buckets).2 = some k →
      (m.buckets.get ⟨k, hk⟩).isFull c = false →
        (m.addPatch c p).buckets
          = m.buckets.set k (Bucket.addPatchB p (m.buckets.get ⟨k, hk⟩))) ∧
    (∀ j, ∀ hj : j < m.buckets.length, ∀ hj' : j < (m.addPatch c p).buckets.length,
      (m.buckets.get ⟨j, hj⟩).number < maxNumber m.buckets →
        (m.addPatch c p).buckets.get ⟨j, hj'⟩ = m.buckets.get ⟨j, hj⟩) := by
  have hbound : ∀ b ∈ m.buckets, b.number ≤ maxNumber m.buckets :=
    fun b hb => foldl_max_mem_le m.buckets 0 b hb
  obtain ⟨hfst, hsnd⟩ := latestIdx_spec m.buckets
  refine ⟨?_, ?_, ?_, ?_, ?_⟩
  · intro hne
    rcases hsnd with ⟨hnone, hmax0⟩ | ⟨k, hk, hsome, hnum⟩
    · rcases hbs : m.buckets with _ | ⟨b, rest⟩
      · exact absurd hbs hne
      · have hmem : b ∈ m.buckets := by
          rw [hbs]
          exact List.mem_cons_self _ _
        have h1 := H b hmem
        have h2 := hbound b hmem
        omega
    · exact ⟨k, hk, hsome, hnum⟩
  · intro hempty
    rcases addPatch_cases c p m with ⟨_, hmax0, heq⟩ | ⟨k, hk, _, _, _⟩
    · rw [heq, hmax0, hempty]
      rfl
    · rw [hempty] at hk
      exact absurd hk (by simp)
  · intro k hk hsome hfull
    rcases addPatch_cases c p m with ⟨hnone, _, _⟩ | ⟨k', hk', hsome', _, hbr⟩
    · rw [hnone] at hsome
      exact absurd hsome (by simp)
    · have hkk : k' = k := by
        rw [hsome] at hsome'
        injection hsome' with hinj
        exact hinj.symm
      subst hkk
      rcases hbr with ⟨_, heq⟩ | ⟨hfull', _⟩
      · exact ⟨heq, fun b hb => by have := hbound b hb; omega⟩
      · rw [hfull] at hfull'
        cases hfull'
  · intro k hk hsome hfull
    rcases addPatch_cases c p m with ⟨hnone, _, _⟩ | ⟨k', hk', hsome', _, hbr⟩
    · rw [hnone] at hsome
      exact absurd hsome (by simp)
    · have hkk : k' = k := by
        rw [hsome] at hsome'
        injection hsome' with hinj
        exact hinj.symm
      subst hkk
      rcases hbr with ⟨hfull', _⟩ | ⟨_, heq⟩
      · rw [hfull] at hfull'
        cases hfull'
      · exact heq
  · intro j hj hj' hlt
    rcases addPatch_cases c p m with ⟨_, _, heq⟩ | ⟨k, hk, hsome, hnum, hbr⟩
    · simp only [List.get_eq_getElem]
      rw [List.getElem_of_eq heq hj']
      exact List.getElem_append_left hj
    · have hjk : j ≠ k := by
        intro hjk
        subst hjk
        rw [hnum] at hlt
        omega
      rcases hbr with ⟨_, heq⟩ | ⟨_, heq⟩
      · simp only [List.get_eq_getElem]
        rw [List.getElem_of_eq heq hj']
        exact List.getElem_append_left hj
      · simp only [List.get_eq_getElem]
        rw [List.getElem_of_eq heq hj']
        exact List.getElem_set_ne (fun h => hjk h.symm) _

theorem c3_witness :
    ((mkTestMaster [mkTestBucket 1 [], mkTestBucket 2 []]).addPatch testCodec
        { action := "+", key := "k", values := [] }).buckets
      = [mkTestBucket 1 [],
         Bucket.addPatchB { action := "+", key := "k", values := [] } (mkTestBucket 2 [])] := by
  have h := (c3_addPatch_rollover testCodec { action := "+", key := "k", values := [] }
      (mkTestMaster [mkTestBucket 1 [], mkTestBucket 2 []]) (by decide)).2.2.2.1
      1 (by decide) (by decide) (by decide)
  rw [h]
  decide

/-! ### C2: CalculateWastage -/

/-- Every patch of every shard (deleted shards included), in encounter
order. -/
def Master.allPatches (m : Master) : List Patch :=
  m.buckets.flatMap Bucket.patches

/-- The change records the grouping pass of `CalculateWastage` inserts, in
encounter order. -/
def Master.allChanges (m : Master) : List Change :=
  m.buckets.enum.flatMap (fun bi =>
    bi.2.patches.enum.map (fun pi => { key := pi.2.key, bucketKey := bi.1, patchKey := pi.1 }))

/-- Number of occurrences of a key in a key list. -/
def keyOcc (ks : List String) (k : String) : Nat :=
  (ks.filter (fun x => x == k)).length

/-- The spec's per-key wasted count: all N occurrences for even N>1, the
first N-1 for odd N>1, none for N=1. -/
def wastedOf (n : Nat) : Nat :=
  if n > 1 then (if n % 2 = 0 then n else n - 1) else 0

/-- The spec's total wasted count over a key list. -/
def specTotalWasted (ks : List String) : Nat :=
  (ks.dedup.map (fun k => wastedOf (keyOcc ks k))).sum

/-- The spec's count of distinct keys. -/
def specDistinct (ks : List String) : Nat := ks.dedup.length

/-- The wastage percentage as the code computes it: the binary64 quotient
of total wasted over total distinct, times 100, truncated toward zero. -/
def specWastageGo (ks : List String) : Nat :=
  goFloatPercent (specTotalWasted ks) (specDistinct ks)

/-- The wastage percentage as the claim words it: `round(100 * wasted /
distinct)`, i.e. floor of the ratio plus one half. -/
def specWastageRound (ks : List String) : Nat :=
  (200 * specTotalWasted ks + specDistinct ks) / (2 * specDistinct ks)

theorem foldl_flatMap_eq {α β γ : Type} (f : γ → β → γ) (h : α → List β) :
    ∀ (l : List α) (init : γ),
      l.foldl (fun acc a => (h a).foldl f acc) init = (l.flatMap h).foldl f init := by
  intro l
  induction l with
  | nil => intro init; rfl
  | cons a rest ih =>
    intro init
    rw [List.foldl_cons, ih, List.flatMap_cons, List.foldl_append]

theorem changes_eq_foldl (m : Master) :
    m.changes = m.allChanges.foldl insertChange [] := by
  rw [Master.changes, Master.allChanges,
    ← foldl_flatMap_eq insertChange
      (fun bi : Nat × Bucket =>
        bi.2.patches.enum.map (fun pi => { key := pi.2.key, bucketKey := bi.1, patchKey := pi.1 }))
      m.buckets.enum ([] : List (String × List Change))]
  simp only [List.foldl_map]

/-- Invariant of the grouping fold: the accumulated association list has
pairwise-distinct keys, its key set is exactly the key set of the
processed changes, and each entry holds exactly the processed changes
carrying its key, in order. -/
def Groups (cs : List (String × List Change)) (done : List Change) : Prop :=
  (cs.map Prod.fst).Nodup ∧
  (∀ k : String, k ∈ cs.map Prod.fst ↔ k ∈ done.map Change.key) ∧
  (∀ kh ∈ cs, kh.2 = done.filter (fun ch => ch.key == kh.1))

theorem insertChange_groups (cs : List (String × List Change)) (done : List Change)
    (ch : Change) (h : Groups cs done) : Groups (insertChange cs ch) (done ++ [ch]) := by
  obtain ⟨hnd, hmem, hfil⟩ := h
  by_cases hc : ch.key ∈ cs.map Prod.fst
  · have hany : cs.any (fun p => p.1 == ch.key) = true := by
      rw [List.any_eq_true]
      rcases List.mem_map.mp hc with ⟨p, hp, hpk⟩
      refine ⟨p, hp, ?_⟩
      rw [hpk]
      simp
    have hfst : ((cs.map (fun p => if p.1 == ch.key then (p.1, p.2 ++ [ch]) else p)).map Prod.fst)
        = cs.map Prod.fst := by
      rw [List.map_map]
      apply List.map_congr_left
      intro p _
      by_cases hpk : p.1 = ch.key
      · simp [hpk]
      · simp [hpk]
    rw [insertChange, if_pos hany]
    refine ⟨?_, ?_, ?_⟩
    · rw [hfst]
      exact hnd
    · intro k
      rw [hfst, List.map_append, List.mem_append]
      constructor
      · intro hk
        exact Or.inl ((hmem k).mp hk)
      · intro hk
        rcases hk with hk | hk
        · exact (hmem k).mpr hk
        · simp only [List.map_cons, List.map_nil, List.mem_singleton] at hk
          rw [hk]
          exact hc
    · intro kh hkh
      rcases List.mem_map.mp hkh with ⟨p, hp, hpe⟩
      by_cases hpk : (p.1 == ch.key) = true
      · have hkeq : p.1 = ch.key := beq_iff_eq.mp hpk
        rw [← hpe, if_pos hpk]
        have hsing : List.filter (fun c => c.key == p.1) [ch] = [ch] := by
          simp [List.filter, hkeq]
        rw [List.filter_append, hsing, ← hfil p hp]
      · rw [← hpe, if_neg hpk]
        have hsing : List.filter (fun c => c.key == p.1) [ch] = [] := by
          have hne : (ch.key == p.1) = false := by
            rw [beq_eq_false_iff_ne]
            intro hek
            exact hpk (beq_iff_eq.mpr hek.symm)
          simp [List.filter, hne]
        rw [List.filter_append, hsing, List.append_nil, ← hfil p hp]
  · have hany : cs.any (fun p => p.1 == ch.key) = false := by
      rw [List.any_eq_false]
      intro p hp
      intro hbeq
      exact hc (List.mem_map.mpr ⟨p, hp, beq_iff_eq.mp hbeq⟩)
    have hcond : ¬(cs.any (fun p => p.1 == ch.key) = true) := by
      rw [hany]
      exact Bool.false_ne_true
    have hchdone : ch.key ∉ done.map Change.key := fun hin => hc ((hmem ch.key).mpr hin)
    rw [insertChange, if_neg hcond]
    refine ⟨?_, ?_, ?_⟩
    · rw [List.map_append]
      rw [List.nodup_append]
      refine ⟨hnd, List.nodup_singleton _, ?_⟩
      intro a ha hb
      simp only [List.map_cons, List.map_nil, List.mem_singleton] at hb
      rw [hb] at ha
      exact hc ha
    · intro k
      rw [List.map_append, List.mem_append, List.map_append, List.mem_append]
      constructor
      · intro hk
        rcases hk with hk | hk
        · exact Or.inl ((hmem k).mp hk)
        · simp only [List.map_cons, List.map_nil, List.mem_singleton] at hk
          refine Or.inr ?_
          simp [hk]
      · intro hk
        rcases hk with hk | hk
        · exact Or.inl ((hmem k).mpr hk)
        · simp only [List.map_cons, List.map_nil, List.mem_singleton] at hk
          refine Or.inr ?_
          simp [hk]
    · intro kh hkh
      rcases List.mem_append.mp hkh with hk | hk
      · have hne : (ch.key == kh.1) = false := by
          rw [beq_eq_false_iff_ne]
          intro heq
          exact hc (heq ▸ List.mem_map.mpr ⟨kh, hk, rfl⟩)
        have hsing : List.filter (fun c => c.key == kh.1) [ch] = [] := by
          simp [List.filter, hne]
        rw [List.filter_append, hsing, List.append_nil, ← hfil kh hk]
      · simp only [List.mem_singleton] at hk
        rw [hk]
        have hdone : done.filter (fun c => c.key == ch.key) = [] := by
          rw [List.filter_eq_nil_iff]
          intro c hcmem
          intro hbeq
          exact hchdone (beq_iff_eq.mp hbeq ▸ List.mem_map.mpr ⟨c, hcmem, rfl⟩)
        have hsing : List.filter (fun c => c.key == ch.key) [ch] = [ch] := by
          simp [List.filter]
        rw [List.filter_append, hdone, List.nil_append, hsing]

theorem foldl_insertChange_groups :
    ∀ (l : List Change) (cs : List (String × List Change)) (done : List Change),
      Groups cs done → Groups (l.foldl insertChange cs) (done ++ l) := by
  intro l
  induction l with
  | nil =>
    intro cs done h
    simpa using h
  | cons c rest ih =>
    intro cs done h
    have h2 := ih (insertChange cs c) (done ++ [c]) (insertChange_groups cs done c h)
    simpa [List.append_assoc] using h2

theorem changes_groups (m : Master) : Groups m.changes m.allChanges := by
  rw [changes_eq_foldl]
  have h0 : Groups [] [] := by
    refine ⟨List.nodup_nil, ?_, ?_⟩
    · intro k
      simp
    · intro kh hkh
      simp at hkh
  simpa using foldl_insertChange_groups m.allChanges [] [] h0

theorem wastage_foldl_length :
    ∀ (cs : List (String × List Change)) (acc : List Change),
      (cs.foldl (fun acc kh =>
        if kh.2.length > 1 then
          if kh.2.length % 2 == 0 then acc ++ kh.2 else acc ++ kh.2.dropLast
        else acc) acc).length
      = acc.length + (cs.map (fun kh => wastedOf kh.2.length)).sum := by
  intro cs
  induction cs with
  | nil => intro acc; simp
  | cons kh rest ih =>
    intro acc
    rw [List.foldl_cons, List.map_cons, List.sum_cons]
    by_cases h1 : kh.2.length > 1
    · by_cases h2 : kh.2.length % 2 = 0
      · rw [if_pos h1, if_pos (by simpa using h2), ih, List.length_append]
        simp only [wastedOf, if_pos h1, if_pos h2]
        omega
      · rw [if_pos h1, if_neg (by simpa using h2), ih, List.length_append,
          List.length_dropLast]
        simp only [wastedOf, if_pos h1, if_neg h2]
        omega
    · rw [if_neg h1, ih]
      simp only [wastedOf, if_neg h1]
      omega

theorem flatMap_enum_snd {α β : Type} (l : List α) (f : α → List β) :
    l.enum.flatMap (fun p => f p.2) = l.flatMap f := by
  have h1 : (l.enum.map Prod.snd).flatMap f = l.enum.flatMap (f ∘ Prod.snd) :=
    List.flatMap_map ..
  rw [List.enum_map_snd] at h1
  exact h1.symm

theorem allChanges_keys (m : Master) :
    m.allChanges.map Change.key = m.allPatches.map Patch.key := by
  rw [Master.allChanges, Master.allPatches, List.map_flatMap, List.map_flatMap]
  have hinner : ∀ bi : Nat × Bucket,
      ((bi.2.patches.enum.map
          (fun pi => ({ key := pi.2.key, bucketKey := bi.1, patchKey := pi.1 } : Change))).map
        Change.key)
        = bi.2.patches.map Patch.key := by
    intro bi
    calc ((bi.2.patches.enum.map
            (fun pi => ({ key := pi.2.key, bucketKey := bi.1, patchKey := pi.1 } : Change))).map
          Change.key)
        = bi.2.patches.enum.map (fun pi => pi.2.key) := by
          rw [List.map_map]
          rfl
      _ = (bi.2.patches.enum.map Prod.snd).map Patch.key := by
          rw [List.map_map]
          rfl
      _ = bi.2.patches.map Patch.key := by
          rw [List.enum_map_snd]
  simp only [hinner]
  exact flatMap_enum_snd m.buckets (fun b => b.patches.map Patch.key)

theorem changes_entry_length (m : Master) (kh : String × List Change)
    (hkh : kh ∈ m.changes) :
    kh.2.length = keyOcc (m.allPatches.map Patch.key) kh.1 := by
  obtain ⟨_, _, hfil⟩ := changes_groups m
  have hswap : ((m.allChanges.map Change.key).filter (fun x => x == kh.1)).length
      = (m.allChanges.filter (fun ch => ch.key == kh.1)).length := by
    rw [List.filter_map, List.length_map]
    rfl
  rw [hfil kh hkh]
  simp only [keyOcc]
  rw [← allChanges_keys, hswap]

theorem changes_keys_perm (m : Master) :
    List.Perm (m.changes.map Prod.fst) ((m.allPatches.map Patch.key).dedup) := by
  obtain ⟨hnd, hmem, _⟩ := changes_groups m
  rw [List.perm_ext_iff_of_nodup hnd (List.nodup_dedup _)]
  intro k
  rw [List.mem_dedup, ← allChanges_keys]
  exact hmem k

/-- The binary64 computation is neither the exact rounding nor the exact
floor of the ratio: 58/100 in binary64 times 100 falls just below 58, so
the code yields 57 where the exact floor is 58; and 2/3 yields 66 where
the rounding is 67. -/
theorem goFloatPercent_double_rounding :
    goFloatPercent 58 100 = 57 ∧ 100 * 58 / 100 = 58 ∧ goFloatPercent 2 3 = 66 := by
  refine ⟨by decide, by decide, by decide⟩

/-- C2 (amended): with at least one patch, `CalculateWastage` groups the
patches of all shards (deleted ones included) by key, wastes all N
occurrences of a key for even N>1 and the first N-1 for odd N>1, and
returns `int((float64(totalWasted) / float64(totalDistinctKeys)) * 100)`
— the binary64 ratio times 100 truncated toward zero — which is not the
claimed rounding (and, through the double rounding, occasionally one
below the exact floor as well). -/
theorem c2_wastage_truncates (m : Master) (h : m.allPatches ≠ []) :
    m.calculateWastage = specWastageGo (m.allPatches.map Patch.key) := by
  have hperm := changes_keys_perm m
  have hlen : m.changes.length = specDistinct (m.allPatches.map Patch.key) := by
    rw [specDistinct, ← hperm.length_eq, List.length_map]
  have hsum : m.wastageList.length = specTotalWasted (m.allPatches.map Patch.key) := by
    rw [Master.wastageList, wastage_foldl_length m.changes [], List.length_nil,
      Nat.zero_add]
    have hcong : m.changes.map (fun kh => wastedOf kh.2.length)
        = m.changes.map (fun kh => wastedOf (keyOcc (m.allPatches.map Patch.key) kh.1)) := by
      apply List.map_congr_left
      intro kh hkh
      rw [changes_entry_length m kh hkh]
    have hmm : m.changes.map (fun kh => wastedOf (keyOcc (m.allPatches.map Patch.key) kh.1))
        = (m.changes.map Prod.fst).map
            (fun k => wastedOf (keyOcc (m.allPatches.map Patch.key) k)) := by
      rw [List.map_map]
      rfl
    rw [hcong, hmm, specTotalWasted]
    exact (hperm.map _).sum_eq
  rw [Master.calculateWastage, hsum, hlen, specWastageGo]

/-- A fixture with keys a, a (inside a deleted shard), b, c: two of three
distinct keys' occurrences are wasted. -/
def wastageExampleMaster : Master :=
  mkTestMaster
    [{ mkTestBucket 1 [{ action := "+", key := "a", values := [] },
                       { action := "-", key := "a", values := [] }] with isDeleted := true },
     mkTestBucket 2 [{ action := "+", key := "b", values := [] },
                     { action := "+", key := "c", values := [] }]]

/-- C2 counterexample: on the fixture (wasted 2 of 3 distinct keys) the
code returns `int((2/3)*100) = 66`, while the claim's
`round(100*2/3) = 67`. -/
theorem c2_counterexample :
    wastageExampleMaster.calculateWastage = 66 ∧
    specWastageRound (wastageExampleMaster.allPatches.map Patch.key) = 67 := by
  constructor
  · decide
  · decide

theorem c2_witness :
    wastageExampleMaster.allPatches ≠ [] ∧
    wastageExampleMaster.calculateWastage
      = specWastageGo (wastageExampleMaster.allPatches.map Patch.key) :=
  ⟨by decide, c2_wastage_truncates wastageExampleMaster (by decide)⟩

/-! ### C7 and C8: the publish protocol -/

/-- The state a bucket ends the publish loop in: deleted buckets are
skipped untouched, changed ones compressed/hashed/relocated, the rest kept
as they are. -/
def publishPassBucket (cd : Codec) (remoteDir : String) (now : Int) (b : Bucket) : Bucket :=
  if b.isDeleted then b else publishedBucket cd remoteDir now b

theorem publishBuckets_ok (v : Validation) (cd : Codec) (remoteDir : String) (now : Int) :
    ∀ (bs bs' : List Bucket) (rows : List (List String)) (ups : List String),
      publishBuckets v cd remoteDir now bs = .ok (bs', rows, ups) →
      bs' = bs.map (publishPassBucket cd remoteDir now) ∧
      rows = (bs.filter (fun b => !b.isDeleted)).map
        (fun b => bucketRow (publishedBucket cd remoteDir now b)) ∧
      ups = (bs.filter (fun b => !b.isDeleted && b.isChanged)).map
        (fun b => (publishedBucket cd remoteDir now b).remoteFilePath) := by
  intro bs
  induction bs with
  | nil =>
    intro bs' rows ups h
    simp only [publishBuckets] at h
    injection h with h
    injection h with h1 h
    injection h with h2 h3
    subst h1; subst h2; subst h3
    simp
  | cons b rest ih =>
    intro bs' rows ups h
    by_cases hd : b.isDeleted = true
    · cases hrec : publishBuckets v cd remoteDir now rest with
      | error e =>
        rw [publishBuckets, if_pos hd, hrec] at h
        cases h
      | ok t =>
        obtain ⟨bs1, rows1, ups1⟩ := t
        rw [publishBuckets, if_pos hd, hrec] at h
        injection h with h
        injection h with h1 h
        injection h with h2 h3
        obtain ⟨g1, g2, g3⟩ := ih bs1 rows1 ups1 hrec
        subst h1; subst h2; subst h3
        refine ⟨?_, ?_, ?_⟩
        · rw [List.map_cons, g1, publishPassBucket, if_pos hd]
        · rw [List.filter_cons, g2]
          simp [hd]
        · rw [List.filter_cons, g3]
          simp [hd]
    · have hd' : b.isDeleted = false := by
        cases hb : b.isDeleted
        · rfl
        · exact absurd hb hd
      by_cases hch : b.isChanged = true
      · cases hvz : (b.compress cd).verifyZipped v cd with
        | some er =>
          rw [publishBuckets, if_neg hd, if_pos hch] at h
          simp only [hvz] at h
          simp at h
        | none =>
          cases hrec : publishBuckets v cd remoteDir now rest with
          | error e =>
            rw [publishBuckets, if_neg hd, if_pos hch] at h
            simp only [hvz, hrec] at h
            simp at h
          | ok t =>
            obtain ⟨bs1, rows1, ups1⟩ := t
            rw [publishBuckets, if_neg hd, if_pos hch] at h
            simp only [hvz, hrec] at h
            injection h with h
            injection h with h1 h
            injection h with h2 h3
            obtain ⟨g1, g2, g3⟩ := ih bs1 rows1 ups1 hrec
            subst h1; subst h2; subst h3
            refine ⟨?_, ?_, ?_⟩
            · rw [List.map_cons, g1, publishPassBucket, if_neg hd]
            · rw [List.filter_cons, g2]
              simp [hd']
            · rw [List.filter_cons, g3]
              simp [hd', hch]
      · have hch' : b.isChanged = false := by
          cases hb : b.isChanged
          · rfl
          · exact absurd hb hch
        cases hrec : publishBuckets v cd remoteDir now rest with
        | error e =>
          rw [publishBuckets, if_neg hd, if_neg hch, hrec] at h
          cases h
        | ok t =>
          obtain ⟨bs1, rows1, ups1⟩ := t
          rw [publishBuckets, if_neg hd, if_neg hch, hrec] at h
          injection h with h
          injection h with h1 h
          injection h with h2 h3
          obtain ⟨g1, g2, g3⟩ := ih bs1 rows1 ups1 hrec
          subst h1; subst h2; subst h3
          refine ⟨?_, ?_, ?_⟩
          · rw [List.map_cons, g1, publishPassBucket, if_neg hd]
            have : publishedBucket cd remoteDir now b = b := by
              simp [publishedBucket, hch']
            rw [this]
          · rw [List.filter_cons, g2]
            have : publishedBucket cd remoteDir now b = b := by
              simp [publishedBucket, hch']
            simp [hd', this]
          · rw [List.filter_cons, g3]
            simp [hd', hch']

theorem upload_ok_parts (v : Validation) (cd : Codec) (now : Int) (nowFmt : String)
    (m : Master) (r : PublishResult)
    (h : m.uploadToStorageBucket v cd now nowFmt = .ok r) :
    r.master.categories
      = (catSection cd m.remoteDir m.categoryItems.length now m.categories).1 ∧
    r.master.buckets = m.buckets.map (publishPassBucket cd m.remoteDir now) ∧
    r.rows = ["V1", toString now, nowFmt]
      :: ((catSection cd m.remoteDir m.categoryItems.length now m.categories).2.1
          ++ (m.buckets.filter (fun b => !b.isDeleted)).map
               (fun b => bucketRow (publishedBucket cd m.remoteDir now b))) ∧
    r.uploads = (catSection cd m.remoteDir m.categoryItems.length now m.categories).2.2
      ++ (m.buckets.filter (fun b => !b.isDeleted && b.isChanged)).map
           (fun b => (publishedBucket cd m.remoteDir now b).remoteFilePath)
      ++ [joinPath [m.remoteDir, m.fileName]] := by
  cases hpb : publishBuckets v cd m.remoteDir now m.buckets with
  | error e =>
    rw [Master.uploadToStorageBucket, hpb] at h
    cases h
  | ok t =>
    obtain ⟨bs, brows, bups⟩ := t
    rw [Master.uploadToStorageBucket, hpb] at h
    injection h with h
    obtain ⟨g1, g2, g3⟩ := publishBuckets_ok v cd m.remoteDir now m.buckets bs brows bups hpb
    subst h
    exact ⟨rfl, g1, by rw [g2], by rw [g3]⟩

/-- C7: on a successful publish, the uploads are exactly: the categories
upload (when it changed), then one upload per changed non-deleted shard
under the brand-new name `{remoteDir}/{unixPublishTimestamp}-{localFileName}`,
then the master document at its fixed path `{remoteDir}/{fileName}`; an
unchanged non-deleted shard is left untouched (keeping its existing remote
path), is not re-uploaded, and still contributes a descriptor row built
from its current path and hashes. -/
theorem c7_publish_naming (v : Validation) (cd : Codec) (now : Int) (nowFmt : String)
    (m : Master) (r : PublishResult)
    (h : m.uploadToStorageBucket v cd now nowFmt = .ok r) :
    r.uploads = (catSection cd m.remoteDir m.categoryItems.length now m.categories).2.2
      ++ (m.buckets.filter (fun b => !b.isDeleted && b.isChanged)).map
           (fun b => joinPath [m.remoteDir, toString now ++ "-" ++ b.zippedFileName])
      ++ [joinPath [m.remoteDir, m.fileName]] ∧
    r.master.buckets = m.buckets.map (publishPassBucket cd m.remoteDir now) ∧
    (∀ b ∈ m.buckets, b.isChanged = true →
      (publishedBucket cd m.remoteDir now b).relativeFilePath
          = toString now ++ "-" ++ b.zippedFileName ∧
      (publishedBucket cd m.remoteDir now b).remoteFilePath
          = joinPath [m.remoteDir, toString now ++ "-" ++ b.zippedFileName]) ∧
    (∀ b ∈ m.buckets, b.isChanged = false → publishPassBucket cd m.remoteDir now b = b) ∧
    r.rows = ["V1", toString now, nowFmt]
      :: ((catSection cd m.remoteDir m.categoryItems.length now m.categories).2.1
          ++ (m.buckets.filter (fun b => !b.isDeleted)).map
               (fun b => bucketRow (publishedBucket cd m.remoteDir now b))) := by
  obtain ⟨g0, g1, g2, g3⟩ := upload_ok_parts v cd now nowFmt m r h
  refine ⟨?_, g1, ?_, ?_, g2⟩
  · rw [g3]
    have hmapeq : (m.buckets.filter (fun b => !b.isDeleted && b.isChanged)).map
          (fun b => (publishedBucket cd m.remoteDir now b).remoteFilePath)
        = (m.buckets.filter (fun b => !b.isDeleted && b.isChanged)).map
            (fun b => joinPath [m.remoteDir, toString now ++ "-" ++ b.zippedFileName]) := by
      apply List.map_congr_left
      intro b hb
      have hch : b.isChanged = true := by
        have := List.of_mem_filter hb
        exact (Bool.and_eq_true _ _).mp this |>.2
      simp [publishedBucket, hch, Bucket.hashB, Bucket.compress]
    rw [hmapeq]
  · intro b _ hch
    constructor
    · simp [publishedBucket, hch, Bucket.hashB, Bucket.compress]
    · simp [publishedBucket, hch, Bucket.hashB, Bucket.compress]
  · intro b _ hch
    simp [publishPassBucket, publishedBucket, hch]

/-- A publish fixture: one unchanged shard keeping an old remote path and
one changed shard. -/
def publishKeptBucket : Bucket :=
  { mkTestBucket 1 [] with
      relativeFilePath := "0-1.csv.zlib"
      remoteFilePath := "rd/0-1.csv.zlib" }

def publishChangedBucket : Bucket :=
  { mkTestBucket 2 [] with isChanged := true }

def publishExampleMaster : Master :=
  mkTestMaster [publishKeptBucket, publishChangedBucket]

/-- Uploads performed by a publish outcome (empty when it failed). -/
def publishOutcome (e : Except Err PublishResult) : List String :=
  match e with
  | .ok r => r.uploads
  | .error _ => []

/-- Whether a publish outcome succeeded. -/
def isOkE (e : Except Err PublishResult) : Bool :=
  match e with
  | .ok _ => true
  | .error _ => false

theorem c7_witness :
    publishOutcome (publishExampleMaster.uploadToStorageBucket vOk testCodec 5 "t")
      = ["rd/5-2.csv.zlib", "rd/master.csv"] := by
  cases hrun : publishExampleMaster.uploadToStorageBucket vOk testCodec 5 "t" with
  | error e =>
    have hok : isOkE (publishExampleMaster.uploadToStorageBucket vOk testCodec 5 "t") = true := by
      decide
    rw [hrun] at hok
    simp [isOkE] at hok
  | ok r =>
    have h := c7_publish_naming vOk testCodec 5 "t" publishExampleMaster r hrun
    have hred : publishOutcome (Except.ok r) = r.uploads := rfl
    rw [hred, h.1]
    decide

/-- C8 (amended): when categories are configured, publish rewrites the
snapshot; only when `IsChanged` is it compressed, hashed, relocated to a
timestamp-qualified remote name and uploaded — the Go code performs NO
round-trip verification of the categories artifact (unlike shards); in
both cases exactly one categories descriptor row follows the header, built
from the categories' current path and hashes. -/
theorem c8_categories_cycle (v : Validation) (cd : Codec) (now : Int) (nowFmt : String)
    (m : Master) (cat : Categories) (r : PublishResult)
    (hcat : m.categories = some cat)
    (h : m.uploadToStorageBucket v cd now nowFmt = .ok r) :
    (cat.write.isChanged cd = true →
      r.master.categories = some (publishedCat cd m.remoteDir now cat) ∧
      r.rows = ["V1", toString now, nowFmt]
        :: catRow m.categoryItems.length (publishedCat cd m.remoteDir now cat)
        :: (m.buckets.filter (fun b => !b.isDeleted)).map
             (fun b => bucketRow (publishedBucket cd m.remoteDir now b)) ∧
      r.uploads = (publishedCat cd m.remoteDir now cat).remoteFilePath
        :: ((m.buckets.filter (fun b => !b.isDeleted && b.isChanged)).map
              (fun b => (publishedBucket cd m.remoteDir now b).remoteFilePath)
            ++ [joinPath [m.remoteDir, m.fileName]]) ∧
      (publishedCat cd m.remoteDir now cat).relativeFilePath
          = toString now ++ "-" ++ cat.zippedFileName ∧
      (publishedCat cd m.remoteDir now cat).remoteFilePath
          = joinPath [m.remoteDir, toString now ++ "-" ++ cat.zippedFileName] ∧
      (publishedCat cd m.remoteDir now cat).zippedContent
          = cd.deflate cat.write.fileContent ∧
      (publishedCat cd m.remoteDir now cat).zippedHash
          = cd.md5b (cd.deflate cat.write.fileContent) ∧
      (publishedCat cd m.remoteDir now cat).unzippedHash
          = cd.md5r cat.write.fileContent) ∧
    (cat.write.isChanged cd = false →
      r.master.categories = some cat.write ∧
      r.rows = ["V1", toString now, nowFmt]
        :: catRow m.categoryItems.length cat.write
        :: (m.buckets.filter (fun b => !b.isDeleted)).map
             (fun b => bucketRow (publishedBucket cd m.remoteDir now b)) ∧
      r.uploads = (m.buckets.filter (fun b => !b.isDeleted && b.isChanged)).map
            (fun b => (publishedBucket cd m.remoteDir now b).remoteFilePath)
          ++ [joinPath [m.remoteDir, m.fileName]] ∧
      cat.write.relativeFilePath = cat.relativeFilePath ∧
      cat.write.remoteFilePath = cat.remoteFilePath ∧
      cat.write.zippedHash = cat.zippedHash ∧
      cat.write.unzippedHash = cat.unzippedHash) := by
  obtain ⟨g0, g1, g2, g3⟩ := upload_ok_parts v cd now nowFmt m r h
  rw [hcat] at g0 g2 g3
  constructor
  · intro hch
    have hcs : catSection cd m.remoteDir m.categoryItems.length now (some cat)
        = (some (publishedCat cd m.remoteDir now cat),
           [catRow m.categoryItems.length (publishedCat cd m.remoteDir now cat)],
           [(publishedCat cd m.remoteDir now cat).remoteFilePath]) := by
      simp only [catSection]
      rw [if_pos hch]
    rw [hcs] at g0 g2 g3
    refine ⟨g0, ?_, ?_, rfl, rfl, rfl, rfl, rfl⟩
    · rw [g2]
      rfl
    · rw [g3]
      rfl
  · intro hch
    have hcs : catSection cd m.remoteDir m.categoryItems.length now (some cat)
        = (some cat.write, [catRow m.categoryItems.length cat.write], []) := by
      simp only [catSection]
      rw [if_neg (by simp [hch])]
    rw [hcs] at g0 g2 g3
    refine ⟨g0, ?_, ?_, rfl, rfl, rfl, rfl⟩
    · rw [g2]
      rfl
    · rw [g3]
      rfl

/-- A codec whose decompression always fails: any artifact compressed
under it cannot be decompressed back, so it can never pass a round-trip
verification. -/
def badCodec : Codec where
  md5r := fun rows => toString rows
  md5b := fun bs => toString bs
  deflate := fun _ => [7]
  inflate := fun _ => none
  rowsSize := fun _ => 0

/-- A categories fixture that will register as changed (its recorded
unzipped checksum does not match its rewritten snapshot). -/
def c8Cat : Categories :=
  newCategories "sb" "oldrel" "rd/oldrel" "d" "zh" "uh" []

def c8CatMaster : Master :=
  { mkTestMaster [] with categories := some c8Cat }

/-- C8 counterexample: under a codec whose decompression always fails, a
publish with a changed categories snapshot still succeeds and uploads the
categories artifact — so no round-trip verification (decompress and
revalidate) of the categories artifact takes place — while the very same
codec makes the publish of a changed SHARD fail its round-trip
verification. -/
theorem c8_counterexample :
    isOkE (c8CatMaster.uploadToStorageBucket vOk badCodec 5 "t") = true ∧
    publishOutcome (c8CatMaster.uploadToStorageBucket vOk badCodec 5 "t")
      = ["rd/5-categories.csv.zlib", "rd/master.csv"] ∧
    badCodec.inflate (badCodec.deflate c8Cat.write.fileContent) = none ∧
    isOkE ((mkTestMaster [publishChangedBucket]).uploadToStorageBucket vOk badCodec 5 "t")
      = false := by
  refine ⟨by decide, by decide, rfl, by decide⟩

theorem c8_witness :
    publishOutcome (c8CatMaster.uploadToStorageBucket vOk testCodec 5 "t")
      = ["rd/5-categories.csv.zlib", "rd/master.csv"] := by
  cases hrun : c8CatMaster.uploadToStorageBucket vOk testCodec 5 "t" with
  | error e =>
    have hok : isOkE (c8CatMaster.uploadToStorageBucket vOk testCodec 5 "t") = true := by
      decide
    rw [hrun] at hok
    simp [isOkE] at hok
  | ok r =>
    have h := (c8_categories_cycle vOk testCodec 5 "t" c8CatMaster c8Cat r rfl hrun).1
      (by decide)
    have hred : publishOutcome (Except.ok r) = r.uploads := rfl
    rw [hred, h.2.2.1]
    decide

/-! ### C9: the remote cleanup sweep -/

theorem cleanup_foldl (m : Master) (now : Int) :
    ∀ (files : List RemoteFile) (acc : List String),
      (files.foldl (fun acc f =>
          if !referenced m f.name && f.created < now - 86400 then acc ++ [f.name] else acc)
        acc)
      = acc ++ (files.filter
          (fun f => !referenced m f.name && f.created < now - 86400)).map RemoteFile.name := by
  intro files
  induction files with
  | nil => intro acc; simp
  | cons f rest ih =>
    intro acc
    rw [List.foldl_cons, List.filter_cons]
    by_cases hc : (!referenced m f.name && decide (f.created < now - 86400)) = true
    · rw [if_pos hc, ih, if_pos hc, List.map_cons]
      rw [List.append_assoc]
      rfl
    · rw [if_neg hc, ih, if_neg hc]

theorem cleanup_eq (m : Master) (now : Int) (files : List RemoteFile) :
    m.cleanupOldFiles now files
      = (files.filter
          (fun f => !referenced m f.name && f.created < now - 86400)).map RemoteFile.name := by
  rw [Master.cleanupOldFiles, cleanup_foldl m now files [], List.nil_append]

/-- C9: a listed remote object created less than (or exactly) 24 hours
before the sweep is never deleted, and a listed object older than 24 hours
that is referenced by neither the categories path, nor any shard's remote
path, nor the master's own path, is deleted (object names in a listing are
distinct). -/
theorem c9_cleanup_grace (m : Master) (now : Int) (files : List RemoteFile)
    (hnd : (files.map RemoteFile.name).Nodup) :
    (∀ f ∈ files, now - 86400 ≤ f.created → f.name ∉ m.cleanupOldFiles now files) ∧
    (∀ f ∈ files, f.created < now - 86400 → referenced m f.name = false →
      f.name ∈ m.cleanupOldFiles now files) := by
  constructor
  · intro f hf hage hmem
    rw [cleanup_eq] at hmem
    rcases List.mem_map.mp hmem with ⟨g, hg, hgname⟩
    have hgfiles : g ∈ files := List.mem_of_mem_filter hg
    have hcond := List.of_mem_filter hg
    have hgf : g = f := List.inj_on_of_nodup_map hnd hgfiles hf hgname
    subst hgf
    have hlt : g.created < now - 86400 := by
      have := (Bool.and_eq_true _ _).mp hcond |>.2
      exact of_decide_eq_true this
    omega
  · intro f hf hage href
    rw [cleanup_eq]
    refine List.mem_map.mpr ⟨f, ?_, rfl⟩
    apply List.mem_filter.mpr
    refine ⟨hf, ?_⟩
    rw [Bool.and_eq_true]
    exact ⟨by rw [href]; rfl, decide_eq_true hage⟩

/-- A cleanup fixture: one referenced object, one young orphan, one old
orphan. -/
def c9Master : Master :=
  { mkTestMaster [publishKeptBucket] with categories := some c8Cat }

theorem c9_witness :
    ((⟨"rd/young-orphan", 999000⟩ : RemoteFile).name
        ∉ c9Master.cleanupOldFiles 1000000
            [⟨"rd/0-1.csv.zlib", 1⟩, ⟨"rd/young-orphan", 999000⟩, ⟨"rd/old-orphan", 1⟩]) ∧
    ((⟨"rd/old-orphan", 1⟩ : RemoteFile).name
        ∈ c9Master.cleanupOldFiles 1000000
            [⟨"rd/0-1.csv.zlib", 1⟩, ⟨"rd/young-orphan", 999000⟩, ⟨"rd/old-orphan", 1⟩]) :=
  ⟨(c9_cleanup_grace c9Master 1000000
      [⟨"rd/0-1.csv.zlib", 1⟩, ⟨"rd/young-orphan", 999000⟩, ⟨"rd/old-orphan", 1⟩]
      (by decide)).1 _ (by decide) (by decide),
   (c9_cleanup_grace c9Master 1000000
      [⟨"rd/0-1.csv.zlib", 1⟩, ⟨"rd/young-orphan", 999000⟩, ⟨"rd/old-orphan", 1⟩]
      (by decide)).2 _ (by decide) (by decide) (by decide)⟩

/-! ### C10: lenient parsing in Master.Download -/

/-- C10 counterexample: a structurally malformed master document — a
6-column shard row whose count column is not a valid integer — makes
`Master.Download`'s parse loop return an error, so the parse is not
error-free on every malformed document. -/
theorem c10_counterexample :
    Master.parseLines (fun _ _ _ => none) (mkTestMaster [])
        [["2", "p", "zlib", "h1", "h2", "x"]]
      = .error (Err.atoiError "x") := by
  rfl

/-- C10 (amended): the parse loop of `Master.Download` silently skips any
row whose column count is neither 3 nor 6; a 6-column row whose first
column is not syntactically a valid integer is treated as shard number 0
(the Atoi error is discarded) provided its count column parses; a header
row whose unix-timestamp column is not syntactically a valid integer
leaves UnixTime at 0 without an error; but — contrary to the claim's
"never returns an error" — a 6-column shard row whose count column fails
`Atoi` IS rejected with an error. -/
theorem c10_parse_lenient (catDL : CatDownload) (m : Master) :
    (∀ line : List String, line.length ≠ 3 → line.length ≠ 6 →
      Master.processLine catDL m line = .ok m) ∧
    (∀ c0 c1 c2 c3 c4 c5 : String, goParseIntSyntax c0 = none → (goAtoi c5).2 = true →
      Master.processLine catDL m [c0, c1, c2, c3, c4, c5]
        = .ok { m with buckets := m.buckets ++
            [newBucket m.storageBucketName c1 (joinPath [m.remoteDir, c1]) m.dir
              0 c3 c4 (goAtoi c5).1] }) ∧
    (∀ v ts dt : String, goParseIntSyntax ts = none →
      Master.processLine catDL m [v, ts, dt]
        = .ok { m with version := v, unixTime := 0, dateTime := dt }) ∧
    (∀ c0 c1 c2 c3 c4 c5 : String, ((goAtoi c0).1 == (-1 : Int)) = false →
        (goAtoi c5).2 = false →
      Master.processLine catDL m [c0, c1, c2, c3, c4, c5]
        = .error (Err.atoiError c5)) := by
  refine ⟨?_, ?_, ?_, ?_⟩
  · intro line h3 h6
    rcases line with _ | ⟨a, _ | ⟨b, _ | ⟨c, _ | ⟨d, _ | ⟨e, _ | ⟨f, _ | ⟨g, rest⟩⟩⟩⟩⟩⟩⟩
    · rfl
    · rfl
    · rfl
    · exact absurd rfl h3
    · rfl
    · rfl
    · exact absurd rfl h6
    · rfl
  · intro c0 c1 c2 c3 c4 c5 hsyn hc5
    have h0 : goAtoi c0 = (0, false) := by
      rw [goAtoi, hsyn]
    rw [Master.processLine, h0]
    have hne : ((0 : Int) == (-1 : Int)) = false := by decide
    simp only [hne, Bool.false_eq_true, if_false, hc5, if_true]
  · intro v ts dt hsyn
    have h0 : goAtoi ts = (0, false) := by
      rw [goAtoi, hsyn]
    rw [Master.processLine, h0]
  · intro c0 c1 c2 c3 c4 c5 hne hc5
    rw [Master.processLine]
    simp only [hne, Bool.false_eq_true, if_false, hc5]

theorem c10_witness :
    Master.processLine (fun _ _ _ => none) (mkTestMaster []) ["only-one-column"]
      = .ok (mkTestMaster []) ∧
    Master.processLine (fun _ _ _ => none) (mkTestMaster []) ["V1", "zz", "today"]
      = .ok { mkTestMaster [] with version := "V1", unixTime := 0, dateTime := "today" } ∧
    Master.processLine (fun _ _ _ => none) (mkTestMaster [])
        ["nope", "p", "zlib", "h1", "h2", "4"]
      = .ok { mkTestMaster [] with buckets :=
          [newBucket "sb" "p" (joinPath ["rd", "p"]) "d" 0 "h1" "h2" 4] } := by
  refine ⟨?_, ?_, ?_⟩
  · exact (c10_parse_lenient (fun _ _ _ => none) (mkTestMaster [])).1
      ["only-one-column"] (by decide) (by decide)
  · exact (c10_parse_lenient (fun _ _ _ => none) (mkTestMaster [])).2.2.1
      "V1" "zz" "today" (by decide)
  · have h := (c10_parse_lenient (fun _ _ _ => none) (mkTestMaster [])).2.1
      "nope" "p" "zlib" "h1" "h2" "4" (by decide) (by decide)
    rw [h]
    rfl

end Cbpatch
